import Mathlib

/-!
# Verification of the tokamak-equilibria field-quantity core

Shallow embedding of the repository's code:

* IEEE-754 binary64 (`F64`) is modelled executably over `ℚ` with
  round-to-nearest-even, for the code paths whose claims are about exact
  floating-point results (`qfactor::Parabolic`, `mod_theta`).  The basic
  operations `+ - * / % sqrt` are exactly specified by IEEE-754, so this
  model is faithful; transcendental functions (`cos`, `sin`, `powf`) are not
  exactly specified and are modelled over `ℝ` instead.
* The interpolation backend (`rsl_interpolation`) and the dataset reader
  (`tokamak_netcdf`) are external collaborators, not part of this
  repository; they are modelled from the spec (§2, §6, §7): a spline is an
  immutable bundle of evaluation functions whose values depend only on the
  coordinates, and an accelerator is a caller-owned lookup cache that is
  updated by every evaluation but never influences the returned value.
* The repository's own logic (`qfactor`, `bfield`, `current`,
  `equilibrium`) is translated statement by statement from `src/`.
-/

set_option maxRecDepth 100000
set_option exponentiation.threshold 3000

/-! ## Executable binary64 model -/

/-- Bit length of a natural number, with an explicit fuel argument so that the
definition is structural (and hence reduces inside the kernel). -/
def blA : ℕ → ℕ → ℕ
  | _, 0 => 0
  | 0, _ + 1 => 0
  | f + 1, n + 1 => blA f ((n + 1) / 2) + 1

/-- Bit length: for `n ≥ 1`, `2 ^ (bitLen n - 1) ≤ n < 2 ^ bitLen n`. -/
def bitLen (n : ℕ) : ℕ := blA n n

/-- The power `2 ^ z` as a rational, via natural-number exponentiation (kernel-reducible). -/
def pow2 (z : ℤ) : ℚ :=
  if 0 ≤ z then ((2 ^ z.toNat : ℕ) : ℚ) else 1 / ((2 ^ (-z).toNat : ℕ) : ℚ)

/-- Round half to even: the integer nearest to `y`, ties going to the even one. -/
def rhe (y : ℚ) : ℤ :=
  if y - ⌊y⌋ < 1 / 2 then ⌊y⌋
  else if (1 : ℚ) / 2 < y - ⌊y⌋ then ⌊y⌋ + 1
  else if ⌊y⌋ % 2 = 0 then ⌊y⌋ else ⌊y⌋ + 1

/-- Binary exponent of a positive rational: the unique `E` with
`2 ^ E ≤ a < 2 ^ (E + 1)` (meaningful for `a > 0`). -/
def expQ (a : ℚ) : ℤ :=
  let k := bitLen a.den
  let m := (a.num.toNat * 2 ^ k) / a.den
  (bitLen m : ℤ) - 1 - (k : ℤ)

/-- Round a positive rational to 53 significant bits, half to even
(unbounded exponent). -/
def roundPos (a : ℚ) : ℚ :=
  ((rhe (a * pow2 (52 - expQ a)) : ℤ) : ℚ) * pow2 (expQ a - 52)

/-- An IEEE-754 binary64 value: a finite value (its exact rational value,
the sign of zero is not tracked), a NaN, or an infinity. -/
inductive F64 where
  | num (val : ℚ)
  | nan
  | inf
  | ninf
deriving DecidableEq

/-- Correct (round-to-nearest-even) rounding of an exact rational result to
binary64, including the subnormal range and overflow to infinity. -/
def roundF (q : ℚ) : F64 :=
  if q = 0 then .num 0
  else if |q| < pow2 (-1022) then
    .num ((if q < 0 then (-1 : ℚ) else 1) * (((rhe (|q| * pow2 1074) : ℤ) : ℚ) * pow2 (-1074)))
  else if pow2 1024 ≤ roundPos |q| then (if q < 0 then .ninf else .inf)
  else .num ((if q < 0 then (-1 : ℚ) else 1) * roundPos |q|)

/-- The binary64 value of a (rational) source literal. -/
def fl (q : ℚ) : F64 := roundF q

/-- IEEE-754 binary64 addition. -/
def addF : F64 → F64 → F64
  | .num a, .num b => roundF (a + b)
  | .nan, _ => .nan
  | _, .nan => .nan
  | .inf, .ninf => .nan
  | .ninf, .inf => .nan
  | .inf, _ => .inf
  | _, .inf => .inf
  | .ninf, _ => .ninf
  | _, .ninf => .ninf

/-- IEEE-754 binary64 negation. -/
def negF : F64 → F64
  | .num a => .num (-a)
  | .nan => .nan
  | .inf => .ninf
  | .ninf => .inf

/-- IEEE-754 binary64 subtraction (`x - y = x + (-y)` exactly in IEEE-754). -/
def subF (a b : F64) : F64 := addF a (negF b)

/-- IEEE-754 binary64 multiplication. -/
def mulF : F64 → F64 → F64
  | .num a, .num b => roundF (a * b)
  | .nan, _ => .nan
  | _, .nan => .nan
  | .inf, .inf => .inf
  | .inf, .ninf => .ninf
  | .ninf, .inf => .ninf
  | .ninf, .ninf => .inf
  | .inf, .num b => if b = 0 then .nan else if 0 < b then .inf else .ninf
  | .num a, .inf => if a = 0 then .nan else if 0 < a then .inf else .ninf
  | .ninf, .num b => if b = 0 then .nan else if 0 < b then .ninf else .inf
  | .num a, .ninf => if a = 0 then .nan else if 0 < a then .ninf else .inf

/-- IEEE-754 binary64 division. -/
def divF : F64 → F64 → F64
  | .num a, .num b =>
    if b = 0 then (if a = 0 then .nan else if 0 < a then .inf else .ninf)
    else roundF (a / b)
  | .nan, _ => .nan
  | _, .nan => .nan
  | .inf, .inf => .nan
  | .inf, .ninf => .nan
  | .ninf, .inf => .nan
  | .ninf, .ninf => .nan
  | .inf, .num b => if b < 0 then .ninf else .inf
  | .ninf, .num b => if b < 0 then .inf else .ninf
  | .num _, .inf => .num 0
  | .num _, .ninf => .num 0

/-- Model of `x.powi(2)` for binary64 `x`: repeated multiplication, i.e. `x * x`. -/
def powi2 (x : F64) : F64 := mulF x x

/-- Fueled Newton iteration for the integer square root, decreasing from an
upper bound (structural, kernel-reducible). -/
def isqrtGo : ℕ → ℕ → ℕ → ℕ
  | 0, _, x => x
  | f + 1, n, x =>
    let y := (x + n / x) / 2
    if x ≤ y then x else isqrtGo f n y

/-- Integer square root `⌊√n⌋` via fueled Newton iteration. -/
def isqrt (n : ℕ) : ℕ :=
  if n ≤ 1 then n else isqrtGo n n (2 ^ (bitLen n / 2 + 1))

/-- Round-to-nearest-even of `√a` to 53 significant bits, for `a > 0`:
the rounding decision compares `4·(a·2^(-2f))` with `(2n₀+1)²` exactly. -/
def sqrtRnd (a : ℚ) : ℚ :=
  let t := Int.ediv (expQ a) 2
  let g := a * pow2 (104 - 2 * t)
  let n0 := isqrt (⌊g⌋).toNat
  let n : ℕ :=
    if 4 * g < (((2 * n0 + 1 : ℕ) : ℚ)) ^ 2 then n0
    else if (((2 * n0 + 1 : ℕ) : ℚ)) ^ 2 < 4 * g then n0 + 1
    else if n0 % 2 = 0 then n0 else n0 + 1
  (n : ℚ) * pow2 (t - 52)

/-- IEEE-754 binary64 square root (`f64::sqrt`): correctly rounded, NaN on
negative input. -/
def sqrtF : F64 → F64
  | .num a => if a < 0 then .nan else if a = 0 then .num 0 else .num (sqrtRnd a)
  | .nan => .nan
  | .inf => .inf
  | .ninf => .nan

/-- Truncation of a rational toward zero. -/
def truncQ (x : ℚ) : ℤ := if 0 ≤ x then ⌊x⌋ else -⌊-x⌋

/-- The binary64 `%` operator (`fmod`), which is exact: the remainder of the
truncated division carries no rounding. -/
def fmodF : F64 → F64 → F64
  | .num a, .num b => if b = 0 then .nan else .num (a - b * ((truncQ (a / b) : ℤ) : ℚ))
  | .nan, _ => .nan
  | _, .nan => .nan
  | .inf, _ => .nan
  | .ninf, _ => .nan
  | .num a, .inf => .num a
  | .num a, .ninf => .num a

/-- IEEE-754 binary64 absolute value. -/
def absF : F64 → F64
  | .num a => .num |a|
  | .nan => .nan
  | .inf => .inf
  | .ninf => .inf

/-- The binary64 `<` comparison (false whenever a NaN is involved). -/
def ltF : F64 → F64 → Bool
  | .num a, .num b => a < b
  | .nan, _ => false
  | _, .nan => false
  | .ninf, .num _ => true
  | .ninf, .inf => true
  | .ninf, .ninf => false
  | .num _, .inf => true
  | .inf, _ => false
  | .num _, .ninf => false

/-- Model of `f64::rem_euclid` exactly as implemented in the Rust standard library:
`let r = self % rhs; if r < 0.0 { r + rhs.abs() } else { r }`. -/
def remEuclidF (self rhs : F64) : F64 :=
  let r := fmodF self rhs
  if ltF r (.num 0) then addF r (absF rhs) else r

/-- The exact rational value of the binary64 constant `std::f64::consts::TAU`
(the nearest double to 2π). -/
def tauQ : ℚ := 7074237752028440 / 2 ^ 50

/-- The binary64 constant `TAU`. -/
def tauF : F64 := .num tauQ

/-- Model of `mod_theta` from `src/bfield.rs` (lines 186–190) over the binary64 model:
`theta.rem_euclid(TAU)`. -/
def mod_theta (theta : F64) : F64 := remEuclidF theta tauF

/-! ## Error taxonomy (`src/error.rs`) -/

/-- The inner payload of a domain error reported by the interpolation
backend (`rsl_interpolation::DomainError`), abstracted to a tag. -/
abbrev DomainError : Type := ℕ

/-- The inner payload of a dataset error (`tokamak_netcdf::NcError`),
abstracted to a tag. -/
abbrev NcError : Type := ℕ

/-- The inner payload of a spline-construction error
(`rsl_interpolation::InterpolationError`), abstracted to a tag. -/
abbrev InterpolationError : Type := ℕ

/-- Model of `EqError` from `src/error.rs`: the four error kinds of the crate, the
`#[from]` payloads carried as data. -/
inductive EqError where
  | domainError (e : DomainError)
  | ncError (e : NcError)
  | splineError (e : InterpolationError)
  | accError

/-! ## Interpolation backend, modelled from the spec

Modelled from the spec: `rsl_interpolation` is an external collaborator
(spec §1 "OUT OF SCOPE", §2 item 1, §3 "Spline", "Accelerator").  A spline
is immutable after construction and "evaluation is pure given
(coordinate(s), accelerator(s)) and does not mutate the spline, only the
accelerator"; accelerators "affect performance, never correctness" (§8).
Accordingly a 1D/2D spline is a bundle of coordinate-indexed evaluation
functions together with an accelerator-update function, and the
accelerator-threaded wrappers pair the pure value with the updated cache. -/

namespace rsl

/-- Modelled from the spec: an accelerator is a mutable lookup-position
cache (the index of the last bracketing interval); its state is a natural
number. -/
abbrev Accelerator : Type := ℕ

/-- Model of `Accelerator::new()`. -/
def accNew : Accelerator := (0 : ℕ)

/-- Modelled from the spec: a 1D spline (`DynSpline<f64>`) supporting
value, derivative and definite-integral evaluation; out-of-domain queries
return a domain error.  `search` is the accelerator update performed by a
lookup at a coordinate. -/
structure Spline1 where
  eval : ℝ → Except DomainError ℝ
  evalDeriv : ℝ → Except DomainError ℝ
  evalInteg : ℝ → ℝ → Except DomainError ℝ
  search : ℝ → Accelerator → Accelerator

/-- Modelled from the spec: accelerator-threaded value evaluation
(`Spline::eval(x, acc)` with `acc: &mut Accelerator`). -/
def Spline1.evalA (s : Spline1) (x : ℝ) (a : Accelerator) :
    Except DomainError ℝ × Accelerator :=
  (s.eval x, s.search x a)

/-- Modelled from the spec: accelerator-threaded derivative evaluation. -/
def Spline1.evalDerivA (s : Spline1) (x : ℝ) (a : Accelerator) :
    Except DomainError ℝ × Accelerator :=
  (s.evalDeriv x, s.search x a)

/-- Modelled from the spec: accelerator-threaded definite-integral
evaluation (`Spline::eval_integ(a, b, acc)`). -/
def Spline1.evalIntegA (s : Spline1) (lo hi : ℝ) (a : Accelerator) :
    Except DomainError ℝ × Accelerator :=
  (s.evalInteg lo hi, s.search hi a)

/-- Modelled from the spec: a 2D spline (`DynSpline2d<f64>`) supporting
value, first partials and the second x-partial. -/
structure Spline2 where
  eval : ℝ → ℝ → Except DomainError ℝ
  evalDerivX : ℝ → ℝ → Except DomainError ℝ
  evalDerivY : ℝ → ℝ → Except DomainError ℝ
  evalDerivXX : ℝ → ℝ → Except DomainError ℝ
  searchX : ℝ → Accelerator → Accelerator
  searchY : ℝ → Accelerator → Accelerator

/-- Modelled from the spec: accelerator-threaded 2D value evaluation. -/
def Spline2.evalA (s : Spline2) (x y : ℝ) (ax ay : Accelerator) :
    Except DomainError ℝ × Accelerator × Accelerator :=
  (s.eval x y, s.searchX x ax, s.searchY y ay)

/-- Modelled from the spec: accelerator-threaded `eval_deriv_x`. -/
def Spline2.evalDerivXA (s : Spline2) (x y : ℝ) (ax ay : Accelerator) :
    Except DomainError ℝ × Accelerator × Accelerator :=
  (s.evalDerivX x y, s.searchX x ax, s.searchY y ay)

/-- Modelled from the spec: accelerator-threaded `eval_deriv_y`. -/
def Spline2.evalDerivYA (s : Spline2) (x y : ℝ) (ax ay : Accelerator) :
    Except DomainError ℝ × Accelerator × Accelerator :=
  (s.evalDerivY x y, s.searchX x ax, s.searchY y ay)

/-- Modelled from the spec: accelerator-threaded `eval_deriv_xx`. -/
def Spline2.evalDerivXXA (s : Spline2) (x y : ℝ) (ax ay : Accelerator) :
    Except DomainError ℝ × Accelerator × Accelerator :=
  (s.evalDerivXX x y, s.searchX x ax, s.searchY y ay)

/-- Modelled from the spec: the spline constructors (`make_spline`), which
take an interpolation-method tag and the coordinate/value arrays and either
produce a spline or reject the inputs with a construction error (§6, §7). -/
structure InterpLib where
  make : String → List ℝ → List ℝ → Except InterpolationError Spline1

end rsl

/-! ## Dataset extraction, modelled from the spec -/

/-- Modelled from the spec: `tokamak_netcdf::extract_var_with_axis_value`,
the reader variant "that prepends a caller-supplied scalar to the returned
array" (§6); the raw extracted array is a parameter. -/
def extract_var_with_axis_value (axisValue : ℝ) (raw : List ℝ) : List ℝ :=
  axisValue :: raw

/-- Modelled from the spec: `tokamak_netcdf::extract_var_with_first_axis_value`,
which duplicates the first tabulated sample as the injected axis value
(§4.1, §4.3); the raw extracted array is a parameter. -/
def extract_var_with_first_axis_value (raw : List ℝ) : List ℝ :=
  match raw with
  | [] => []
  | x :: xs => x :: x :: xs

/-! ## q-factor (`src/qfactor/`) -/

namespace qfactor

/-- Model of `qfactor::Parabolic` (`src/qfactor/parabolic.rs`), over the binary64
model: the three parameters and the four precomputed intermediate
quantities.  (`psip`, which calls the libm `atan`, is outside the exactly
specified binary64 subset and is not part of this model.) -/
structure Parabolic where
  q0 : F64
  qwall : F64
  psi_wall : F64
  diff : F64
  sqrt_diff : F64
  sqrt_prod : F64
  sqrt_q0psi_wall : F64

/-- Model of `Parabolic::new(q0, qwall, psi_wall)`: computes
`diff = qwall - q0`, `sqrt_diff = diff.sqrt()`,
`sqrt_prod = q0.sqrt() * diff.sqrt()`,
`sqrt_q0psi_wall = q0.sqrt() * psi_wall`, and returns `Ok` unconditionally
(no validation is performed). -/
def Parabolic.new (q0 qwall psi_wall : F64) : Except EqError Parabolic :=
  let diff := subF qwall q0
  let sqrt_q0 := sqrtF q0
  .ok
    { q0 := q0
      qwall := qwall
      psi_wall := psi_wall
      diff := diff
      sqrt_diff := sqrtF diff
      sqrt_prod := mulF sqrt_q0 (sqrtF diff)
      sqrt_q0psi_wall := mulF sqrt_q0 psi_wall }

/-- Model of `<Parabolic as Qfactor>::q(psi, acc)`:
`Ok(self.q0 + self.diff * (psi / self.psi_wall).powi(2))`; the optional
accelerator is unused. -/
def Parabolic.q (p : Parabolic) (psi : F64) (_acc : Option rsl.Accelerator) :
    Except EqError F64 :=
  .ok (addF p.q0 (mulF p.diff (powi2 (divF psi p.psi_wall))))

/-- Model of `qfactor::Numerical` (`src/qfactor/numerical.rs`): two splines and the
computed ψₚ samples. -/
structure Numerical where
  q_spline : rsl.Spline1
  psip_spline : rsl.Spline1
  psip_data : List ℝ

/-- The ψₚ-derivation loop of `Numerical::from_dataset`
(`src/qfactor/numerical.rs` lines 56–61): one local accelerator is threaded
through the whole batch; each grid value contributes
`q_spline.eval_integ(0.0, psi, acc)`, and the first integration error aborts
the loop. -/
def integLoop (s : rsl.Spline1) : List ℝ → rsl.Accelerator →
    Except DomainError (List ℝ)
  | [], _ => .ok []
  | p :: ps, a =>
    let out := s.evalIntegA 0 p a
    match out.1 with
    | .error e => .error e
    | .ok v =>
      match integLoop s ps out.2 with
      | .error e => .error e
      | .ok vs => .ok (v :: vs)

/-- Model of `Numerical::from_dataset` (`src/qfactor/numerical.rs` lines 38–70),
with the external reader's outputs (`rawPsi`, `rawQ`) and the external
spline constructor (`lib`) as parameters: prepends `0.0` to the ψ array and
duplicates the first q sample, builds the q spline, derives the ψₚ samples
by the integration loop, and builds the ψₚ spline over the same ψ grid.
Every failure is propagated via the `?` conversions of `EqError`. -/
def Numerical.from_dataset (lib : rsl.InterpLib) (typ : String)
    (rawPsi rawQ : List ℝ) : Except EqError Numerical :=
  let psi_data := extract_var_with_axis_value 0 rawPsi
  let q_data := extract_var_with_first_axis_value rawQ
  match lib.make typ psi_data q_data with
  | .error e => .error (EqError.splineError e)
  | .ok q_spline =>
    match integLoop q_spline psi_data rsl.accNew with
    | .error e => .error (EqError.domainError e)
    | .ok psip_data =>
      match lib.make typ psi_data psip_data with
      | .error e => .error (EqError.splineError e)
      | .ok psip_spline =>
        .ok { q_spline := q_spline, psip_spline := psip_spline, psip_data := psip_data }

/-- Model of `<Numerical as Qfactor>::q(psi, acc)` (`src/qfactor/numerical.rs` lines
74–79): with `Some(acc)` it evaluates the q spline (mutating only the
accelerator), with `None` it returns `Err(EqError::AccError)`.  The second
component is the state of the caller's optional accelerator after the
call. -/
def Numerical.q (nq : Numerical) (psi : ℝ) :
    Option rsl.Accelerator → Except EqError ℝ × Option rsl.Accelerator
  | some a =>
    match nq.q_spline.evalA psi a with
    | (r, a1) => (r.mapError EqError.domainError, some a1)
  | none => (.error EqError.accError, none)

/-- Model of `<Numerical as Qfactor>::psip(psi, acc)` (`src/qfactor/numerical.rs`
lines 81–86). -/
def Numerical.psip (nq : Numerical) (psi : ℝ) :
    Option rsl.Accelerator → Except EqError ℝ × Option rsl.Accelerator
  | some a =>
    match nq.psip_spline.evalA psi a with
    | (r, a1) => (r.mapError EqError.domainError, some a1)
  | none => (.error EqError.accError, none)

/-- The `Some(&mut acc)` calling convention for `Numerical::q`: the caller
owns a single accelerator and passes it to every call. -/
def Numerical.qSome (nq : Numerical) (psi : ℝ) (a : rsl.Accelerator) :
    Except EqError ℝ × rsl.Accelerator :=
  match nq.q psi (some a) with
  | (r, oa) => (r, oa.getD a)

/-- The `Some(&mut acc)` calling convention for `Numerical::psip`. -/
def Numerical.psipSome (nq : Numerical) (psi : ℝ) (a : rsl.Accelerator) :
    Except EqError ℝ × rsl.Accelerator :=
  match nq.psip psi (some a) with
  | (r, oa) => (r, oa.getD a)

end qfactor

/-! ## Plasma current (`src/current/numerical.rs`) -/

namespace current

/-- Model of `current::Numerical`: two independent 1D splines over ψ. -/
structure Numerical where
  i_spline : rsl.Spline1
  g_spline : rsl.Spline1

/-- Model of `<Numerical as Current>::i(psi, acc)` (lines 62–64). -/
def Numerical.i (nc : Numerical) (psi : ℝ) (a : rsl.Accelerator) :
    Except EqError ℝ × rsl.Accelerator :=
  match nc.i_spline.evalA psi a with
  | (r, a1) => (r.mapError EqError.domainError, a1)

/-- Model of `<Numerical as Current>::g(psi, acc)` (lines 66–68). -/
def Numerical.g (nc : Numerical) (psi : ℝ) (a : rsl.Accelerator) :
    Except EqError ℝ × rsl.Accelerator :=
  match nc.g_spline.evalA psi a with
  | (r, a1) => (r.mapError EqError.domainError, a1)

/-- Model of `<Numerical as Current>::i_der(psi, acc)` (lines 70–72): delegates to
the spline's derivative evaluator. -/
def Numerical.i_der (nc : Numerical) (psi : ℝ) (a : rsl.Accelerator) :
    Except EqError ℝ × rsl.Accelerator :=
  match nc.i_spline.evalDerivA psi a with
  | (r, a1) => (r.mapError EqError.domainError, a1)

/-- Model of `<Numerical as Current>::g_der(psi, acc)` (lines 74–76). -/
def Numerical.g_der (nc : Numerical) (psi : ℝ) (a : rsl.Accelerator) :
    Except EqError ℝ × rsl.Accelerator :=
  match nc.g_spline.evalDerivA psi a with
  | (r, a1) => (r.mapError EqError.domainError, a1)

end current

/-! ## Magnetic field (`src/bfield/`, `src/bfield.rs`) -/

namespace bfield

/-- Model of `bfield::Numerical` (`src/bfield/numerical.rs`): the 2D spline over the
magnetic-field-strength table, plus the table itself (kept as a field). -/
structure Numerical where
  b_spline : rsl.Spline2
  b_data : List (List ℝ)

/-- Model of `<Numerical as Bfield>::b(psi, theta, xacc, yacc)`
(`src/bfield/numerical.rs` lines 61–69): `self.b_spline.eval(psi, theta,
xacc, yacc)` — θ is passed to the spline as received, unwrapped. -/
def Numerical.b (nb : Numerical) (psi theta : ℝ)
    (xacc yacc : rsl.Accelerator) :
    Except EqError ℝ × rsl.Accelerator × rsl.Accelerator :=
  match nb.b_spline.evalA psi theta xacc yacc with
  | (r, ax, ay) => (r.mapError EqError.domainError, ax, ay)

/-- Model of `<Numerical as Bfield>::db_dtheta` (lines 71–80): `eval_deriv_y` on the
raw θ. -/
def Numerical.db_dtheta (nb : Numerical) (psi theta : ℝ)
    (xacc yacc : rsl.Accelerator) :
    Except EqError ℝ × rsl.Accelerator × rsl.Accelerator :=
  match nb.b_spline.evalDerivYA psi theta xacc yacc with
  | (r, ax, ay) => (r.mapError EqError.domainError, ax, ay)

/-- Model of `<Numerical as Bfield>::db_dpsi` (lines 82–91): `eval_deriv_x` on the
raw θ. -/
def Numerical.db_dpsi (nb : Numerical) (psi theta : ℝ)
    (xacc yacc : rsl.Accelerator) :
    Except EqError ℝ × rsl.Accelerator × rsl.Accelerator :=
  match nb.b_spline.evalDerivXA psi theta xacc yacc with
  | (r, ax, ay) => (r.mapError EqError.domainError, ax, ay)

/-- Model of `<Numerical as Bfield>::d2b_dpsi2` (lines 93–102): `eval_deriv_xx` on
the raw θ. -/
def Numerical.d2b_dpsi2 (nb : Numerical) (psi theta : ℝ)
    (xacc yacc : rsl.Accelerator) :
    Except EqError ℝ × rsl.Accelerator × rsl.Accelerator :=
  match nb.b_spline.evalDerivXXA psi theta xacc yacc with
  | (r, ax, ay) => (r.mapError EqError.domainError, ax, ay)

/-- Model of `bfield::Lar` (`src/bfield/lar.rs`): the Large-Aspect-Ratio analytical
magnetic field, a unit struct. -/
structure Lar where

/-- Model of `Lar::new()` (lines 24–26): `Ok(Self)`. -/
def Lar.new : Except EqError Lar := .ok {}

/-- Model of `<Lar as Bfield>::b` (lines 32–41): `1.0 - (2.0 * psi).sqrt() *
theta.cos()`, over ℝ (the libm `cos`/`sqrt` modelled by their exact real
counterparts); the accelerators are unused. -/
noncomputable def Lar.b (_ : Lar) (psi theta : ℝ)
    (_xacc _yacc : rsl.Accelerator) : Except EqError ℝ :=
  .ok (1 - Real.sqrt (2 * psi) * Real.cos theta)

/-- Model of `<Lar as Bfield>::db_dtheta` (lines 45–54): `(2.0 * psi).sqrt() *
theta.sin()`. -/
noncomputable def Lar.db_dtheta (_ : Lar) (psi theta : ℝ)
    (_xacc _yacc : rsl.Accelerator) : Except EqError ℝ :=
  .ok (Real.sqrt (2 * psi) * Real.sin theta)

/-- Model of `<Lar as Bfield>::db_dpsi` (lines 58–67): `-theta.cos() / (2.0 *
psi).sqrt()`. -/
noncomputable def Lar.db_dpsi (_ : Lar) (psi theta : ℝ)
    (_xacc _yacc : rsl.Accelerator) : Except EqError ℝ :=
  .ok (-Real.cos theta / Real.sqrt (2 * psi))

/-- Model of `<Lar as Bfield>::d2b_dpsi2` (`src/bfield/lar.rs` lines 71–80):
`theta.cos() / (2.0 * psi.sqrt()).powf(3.0 / 2.0)` — note the positive
sign and that the square root is applied to ψ before the doubling, unlike
the doc comment above it in the source. -/
noncomputable def Lar.d2b_dpsi2 (_ : Lar) (psi theta : ℝ)
    (_xacc _yacc : rsl.Accelerator) : Except EqError ℝ :=
  .ok (Real.cos theta / (2 * Real.sqrt psi) ^ ((3 : ℝ) / 2))

end bfield

/-- The second-derivative formula exactly as the spec states it (§4.2 and
§8): `∂²B/∂ψ² = cosθ/(2√ψ)^{3/2}`, written from the spec's words for
comparison against the code's expression. -/
noncomputable def specLarD2bDpsi2 (psi theta : ℝ) : ℝ :=
  Real.cos theta / (2 * Real.sqrt psi) ^ ((3 : ℝ) / 2)

/-- Model of `mod_theta` over ℝ: the Euclidean remainder of θ by the real period 2π,
`θ - 2π·⌊θ/(2π)⌋`, used for the periodicity analysis (the rounding
behaviour of the binary64 version is analysed separately through
`mod_theta`). -/
noncomputable def mod_theta_real (theta : ℝ) : ℝ :=
  theta - 2 * Real.pi * ⌊theta / (2 * Real.pi)⌋

/-- The `Bfield` struct of `src/bfield.rs` (the crate-root module): its
four evaluation methods wrap θ with `mod_theta` before every spline
call. -/
structure Bfield where
  b_spline : rsl.Spline2

/-- Model of `Bfield::b` (`src/bfield.rs` lines 77–85):
`self.b_spline.eval(psip, mod_theta(theta), xacc, yacc)`. -/
noncomputable def Bfield.b (bf : Bfield) (psip theta : ℝ)
    (xacc yacc : rsl.Accelerator) :
    Except EqError ℝ × rsl.Accelerator × rsl.Accelerator :=
  match bf.b_spline.evalA psip (mod_theta_real theta) xacc yacc with
  | (r, ax, ay) => (r.mapError EqError.domainError, ax, ay)

/-- Model of `Bfield::db_dtheta` (`src/bfield.rs` lines 107–118): `eval_deriv_y` at
the wrapped θ. -/
noncomputable def Bfield.db_dtheta (bf : Bfield) (psip theta : ℝ)
    (xacc yacc : rsl.Accelerator) :
    Except EqError ℝ × rsl.Accelerator × rsl.Accelerator :=
  match bf.b_spline.evalDerivYA psip (mod_theta_real theta) xacc yacc with
  | (r, ax, ay) => (r.mapError EqError.domainError, ax, ay)

/-- Model of `Bfield::db_dpsi` (`src/bfield.rs` lines 140–151): `eval_deriv_x` at
the wrapped θ. -/
noncomputable def Bfield.db_dpsi (bf : Bfield) (psip theta : ℝ)
    (xacc yacc : rsl.Accelerator) :
    Except EqError ℝ × rsl.Accelerator × rsl.Accelerator :=
  match bf.b_spline.evalDerivXA psip (mod_theta_real theta) xacc yacc with
  | (r, ax, ay) => (r.mapError EqError.domainError, ax, ay)

/-- Model of `Bfield::d2b_dpsi2` (`src/bfield.rs` lines 173–183): `eval_deriv_xx` at
the wrapped θ. -/
noncomputable def Bfield.d2b_dpsi2 (bf : Bfield) (psip theta : ℝ)
    (xacc yacc : rsl.Accelerator) :
    Except EqError ℝ × rsl.Accelerator × rsl.Accelerator :=
  match bf.b_spline.evalDerivXXA psip (mod_theta_real theta) xacc yacc with
  | (r, ax, ay) => (r.mapError EqError.domainError, ax, ay)

/-! ## Equilibrium aggregate (`src/equilibrium.rs`) -/

/-- The observable outcome of running a Rust function that can return
normally, return an error, or terminate abnormally via a panic
(`todo!()`). -/
inductive RunResult (α : Type) where
  | ok (a : α)
  | err (e : EqError)
  | panicked

/-- Model of `Equilibrium<Q, B, C, E>` (`src/equilibrium.rs` lines 13–28): one field
per quantity capability. -/
structure Equilibrium (Q B C E : Type) where
  qfactor : Q
  bfield : B
  current : C
  efield : E

/-- Model of `Equilibrium::from_dataset(path)` (`src/equilibrium.rs` lines 64–67):
`let _file = tokamak_netcdf::Equilibrium::from_file(path)?; todo!()`.
The reader's outcome is the parameter: a reader error is propagated via
`?` as `EqError::NcError`, and on reader success the function reaches
`todo!()` and panics. -/
def Equilibrium.from_dataset (Q B C E : Type) (reader : Except NcError Unit) :
    RunResult (Equilibrium Q B C E) :=
  match reader with
  | .error e => .err (EqError.ncError e)
  | .ok _ => .panicked

/-! ## Query sequences with threaded versus fresh accelerators -/

/-- Evaluate a stateful query `f` over a sequence of inputs, threading one
state (the reused accelerator) through all calls. -/
def runThreaded {α σ : Type} (f : α → σ → Except EqError ℝ × σ) :
    List α → σ → List (Except EqError ℝ)
  | [], _ => []
  | x :: xs, s =>
    match f x s with
    | (r, s1) => r :: runThreaded f xs s1

/-- Evaluate a stateful query `f` over a sequence of inputs, giving every
call a fresh copy of the initial state (a fresh accelerator per call). -/
def runFresh {α σ : Type} (f : α → σ → Except EqError ℝ × σ) (s0 : σ)
    (xs : List α) : List (Except EqError ℝ) :=
  xs.map fun x => (f x s0).1


/-- A concrete 2D interpolant used as a counterexample instance: its value
at `(x, y)` is `y` itself, so it is not 2π-periodic in `y`. -/
def thetaSpline2 : rsl.Spline2 where
  eval := fun _ y => .ok y
  evalDerivX := fun _ y => .ok y
  evalDerivY := fun _ y => .ok y
  evalDerivXX := fun _ y => .ok y
  searchX := fun _ a => a
  searchY := fun _ a => a

/-- A concrete total 1D interpolant (the identity on the coordinate) used
to instantiate universally quantified statements at a concrete input. -/
def idSpline1 : rsl.Spline1 where
  eval := fun x => .ok x
  evalDeriv := fun x => .ok x
  evalInteg := fun _ b => .ok b
  search := fun _ a => a

/-- A concrete interpolation-library instance whose constructor always
returns `idSpline1`. -/
def constLib : rsl.InterpLib where
  make := fun _ _ _ => .ok idSpline1

/-- A concrete interpolation-method tag used by witness instantiations. -/
def cubicTag : String := "cubic"

/-! ## Theorems -/

set_option maxHeartbeats 2000000

/-- C1: on every reader failure `Equilibrium::from_dataset` propagates the
dataset error unchanged as an `Err`; on every reader success it reaches the
`todo!()` and panics, never calling the four quantities' constructors and
never returning an `Equilibrium` — contradicting the spec's intended
behaviour on the success path (evaluated here at the failing input
`reader = Ok(file)` and, for contrast, at an arbitrary reader error). -/
theorem equilibrium_from_dataset_panics_on_success :
    Equilibrium.from_dataset ℕ ℕ ℕ ℕ (.ok ()) = RunResult.panicked
    ∧ ∀ e : NcError,
        Equilibrium.from_dataset ℕ ℕ ℕ ℕ (.error e)
          = RunResult.err (EqError.ncError e) :=
  ⟨rfl, fun _ => rfl⟩

/-- C6: for the Parabolic q-factor constructed with `q₀ = 1.1`,
`q_wall = 3.9`, `ψ_wall = 0.125`, the operation `q` returns, with exact
binary64 arithmetic, exactly the value of the literal `1.1` at `ψ = 0` and
exactly the value of the literal `3.9` at `ψ = ψ_wall` (the precomputed
difference `q_wall − q₀` makes `1.1 + (3.9 − 1.1)` round back to `3.9`). -/
theorem parabolic_q_boundary_values_exact :
    (qfactor.Parabolic.new (fl (11/10)) (fl (39/10)) (fl (1/8))).map
        (fun p => (p.q (.num 0) none, p.q (fl (1/8)) none))
      = .ok (.ok (fl (11/10)), .ok (fl (39/10))) := by
  with_unfolding_all rfl

/-- C10: `Parabolic::new` returns `Ok` for every parameter triple — it
performs no validation; in particular the degenerate triple
`q₀ = 3.9, q_wall = 1.1` (so `q_wall < q₀`) is accepted with the
precomputed `sqrt_diff = √(q_wall − q₀)` being NaN, and `ψ_wall = 0` is
accepted as well, so no degenerate input is ever surfaced as a
construction error. -/
theorem parabolic_new_never_fails :
    (∀ q0 qwall psi_wall : F64,
        ∃ p, qfactor.Parabolic.new q0 qwall psi_wall = .ok p)
    ∧ (qfactor.Parabolic.new (fl (39/10)) (fl (11/10)) (fl (1/8))).map
        (fun p => p.sqrt_diff) = .ok .nan
    ∧ (qfactor.Parabolic.new (fl (11/10)) (fl (39/10)) (.num 0)).map
        (fun p => p.psi_wall) = .ok (.num 0) := by
  refine ⟨fun q0 qwall psi_wall => ⟨_, rfl⟩, ?_, ?_⟩
  · with_unfolding_all rfl
  · with_unfolding_all rfl

/-- C3: for every ψ > 0 and every θ (and any accelerator pair), the LAR
`d2b_dpsi2` returns `Ok` of exactly the spec's formula `cosθ/(2√ψ)^{3/2}` —
positive sign, square root applied to ψ before the doubling. -/
theorem lar_d2b_dpsi2_matches_spec_formula (psi theta : ℝ)
    (xacc yacc : rsl.Accelerator) (h : 0 < psi) :
    bfield.Lar.d2b_dpsi2 {} psi theta xacc yacc
      = .ok (specLarD2bDpsi2 psi theta) := rfl

/-- C3 witness: the theorem applied at `ψ = 1`, `θ = 0` with fresh
accelerators. -/
theorem lar_d2b_dpsi2_matches_spec_formula_witness :
    (0 : ℝ) < 1
    ∧ bfield.Lar.d2b_dpsi2 {} 1 0 rsl.accNew rsl.accNew
        = .ok (specLarD2bDpsi2 1 0) :=
  ⟨one_pos, lar_d2b_dpsi2_matches_spec_formula 1 0 rsl.accNew rsl.accNew one_pos⟩

/-- C4: for the numerical q-factor, `q` and `psip` called with `None`
return `Err(EqError::AccError)` and leave the (absent) accelerator
untouched; called with `Some` accelerator they never return `AccError`
(only `Ok` or a propagated domain error); and `AccError` is a constructor
distinct from the domain, spline-construction and dataset error kinds. -/
theorem qfactor_numerical_missing_accelerator (nq : qfactor.Numerical)
    (psi : ℝ) :
    (nq.q psi none = (.error EqError.accError, none)
      ∧ nq.psip psi none = (.error EqError.accError, none))
    ∧ (∀ a : rsl.Accelerator,
        (nq.q psi (some a)).1 ≠ .error EqError.accError
        ∧ (nq.psip psi (some a)).1 ≠ .error EqError.accError)
    ∧ (∀ d : DomainError, EqError.accError ≠ EqError.domainError d)
    ∧ (∀ n : NcError, EqError.accError ≠ EqError.ncError n)
    ∧ (∀ s : InterpolationError, EqError.accError ≠ EqError.splineError s) := by
  refine ⟨⟨rfl, rfl⟩, fun a => ⟨?_, ?_⟩, fun d => by simp, fun n => by simp,
    fun s => by simp⟩
  · show (Except.mapError EqError.domainError (nq.q_spline.eval psi))
        ≠ .error EqError.accError
    cases nq.q_spline.eval psi <;> simp [Except.mapError]
  · show (Except.mapError EqError.domainError (nq.psip_spline.eval psi))
        ≠ .error EqError.accError
    cases nq.psip_spline.eval psi <;> simp [Except.mapError]

/-- C2 counterexample: the numerical `Bfield` operations pass θ to the
spline unwrapped (`src/bfield/numerical.rs` lines 61–102 contain no
`mod_theta` call), so for the concrete instance built on `thetaSpline2`
the value `b(1, 0)` differs from `b(1, 0 + 2π·1)`: the claimed
θ ↦ θ + 2πk invariance fails at ψ = 1, θ = 0, k = 1. -/
theorem bfield_numerical_not_periodic :
    (bfield.Numerical.b ⟨thetaSpline2, []⟩ 1 (0 + 2 * Real.pi * 1)
        rsl.accNew rsl.accNew).1
      ≠ (bfield.Numerical.b ⟨thetaSpline2, []⟩ 1 0 rsl.accNew rsl.accNew).1 := by
  show Except.mapError EqError.domainError (Except.ok (0 + 2 * Real.pi * 1))
      ≠ Except.mapError EqError.domainError (Except.ok 0)
  simp [Except.mapError]
  exact Real.pi_ne_zero

/-- The real Euclidean remainder by 2π is invariant under shifts by integer
multiples of 2π. -/
theorem mod_theta_real_periodic (theta : ℝ) (k : ℤ) :
    mod_theta_real (theta + 2 * Real.pi * k) = mod_theta_real theta := by
  unfold mod_theta_real
  have h2 : (2 * Real.pi) ≠ 0 := by
    positivity
  have hdiv : (theta + 2 * Real.pi * k) / (2 * Real.pi)
      = theta / (2 * Real.pi) + k := by
    field_simp
    ring
  rw [hdiv, Int.floor_add_int]
  push_cast
  ring

/-- C2 amended: the wrap-before-every-spline-call behaviour lives in the
`Bfield` struct of `src/bfield.rs`, whose four evaluation operations apply
`mod_theta` to θ before every spline call and therefore return identical
results at `(ψ, θ)` and `(ψ, θ + 2πk)` for every spline, every ψ, every
real θ, every integer k and any accelerators; the `bfield::Numerical`
operations (see the counterexample) pass θ unwrapped. -/
theorem bfield_struct_wrap_periodic (s : rsl.Spline2) (psi theta : ℝ)
    (k : ℤ) (xacc yacc : rsl.Accelerator) :
    ((Bfield.mk s).b psi (theta + 2 * Real.pi * k) xacc yacc).1
        = ((Bfield.mk s).b psi theta xacc yacc).1
    ∧ ((Bfield.mk s).db_dtheta psi (theta + 2 * Real.pi * k) xacc yacc).1
        = ((Bfield.mk s).db_dtheta psi theta xacc yacc).1
    ∧ ((Bfield.mk s).db_dpsi psi (theta + 2 * Real.pi * k) xacc yacc).1
        = ((Bfield.mk s).db_dpsi psi theta xacc yacc).1
    ∧ ((Bfield.mk s).d2b_dpsi2 psi (theta + 2 * Real.pi * k) xacc yacc).1
        = ((Bfield.mk s).d2b_dpsi2 psi theta xacc yacc).1 := by
  refine ⟨?_, ?_, ?_, ?_⟩ <;>
    simp [Bfield.b, Bfield.db_dtheta, Bfield.db_dpsi, Bfield.d2b_dpsi2,
      rsl.Spline2.evalA, rsl.Spline2.evalDerivXA, rsl.Spline2.evalDerivYA,
      rsl.Spline2.evalDerivXXA, mod_theta_real_periodic theta k]

/-- If the value component of a stateful query is independent of the state,
then threading one state through a query sequence returns the same value
sequence as restarting from any fixed state at every query. -/
theorem runThreaded_eq_runFresh {α σ : Type}
    (f : α → σ → Except EqError ℝ × σ)
    (h : ∀ x s s', (f x s).1 = (f x s').1) :
    ∀ (xs : List α) (s0 s1 : σ), runThreaded f xs s0 = runFresh f s1 xs := by
  intro xs
  induction xs with
  | nil => intro s0 s1; rfl
  | cons x xs ih =>
    intro s0 s1
    rcases hfs : f x s0 with ⟨r, s2⟩
    have hr : r = (f x s1).1 := by rw [← h x s0 s1, hfs]
    simp only [runThreaded, hfs]
    show r :: runThreaded f xs s2 = (f x s1).1 :: runFresh f s1 xs
    rw [hr, ih s2 s1]

/-- C9: for the spline-backed quantities (numerical q-factor, current and
magnetic field), evaluating any monotonically increasing sequence of
in-domain queries with one accelerator reused (threaded) across all calls
returns exactly the same value sequence as evaluating every query with a
fresh accelerator: the accelerator state never influences a returned
value. -/
theorem accelerator_reuse_value_equality
    (nq : qfactor.Numerical) (nc : current.Numerical) (nb : bfield.Numerical)
    (xs : List ℝ) (ps : List (ℝ × ℝ))
    (hmono : xs.Chain' (· < ·))
    (hmono2 : ps.Chain' (fun p q => p.1 < q.1 ∧ p.2 < q.2))
    (hdom : ∀ x ∈ xs,
      (nq.q_spline.eval x).isOk = true ∧ (nq.psip_spline.eval x).isOk = true
      ∧ (nc.i_spline.eval x).isOk = true ∧ (nc.g_spline.eval x).isOk = true
      ∧ (nc.i_spline.evalDeriv x).isOk = true
      ∧ (nc.g_spline.evalDeriv x).isOk = true)
    (hdom2 : ∀ p ∈ ps,
      (nb.b_spline.eval p.1 p.2).isOk = true
      ∧ (nb.b_spline.evalDerivX p.1 p.2).isOk = true
      ∧ (nb.b_spline.evalDerivY p.1 p.2).isOk = true
      ∧ (nb.b_spline.evalDerivXX p.1 p.2).isOk = true) :
    runThreaded nq.qSome xs rsl.accNew = runFresh nq.qSome rsl.accNew xs
    ∧ runThreaded nq.psipSome xs rsl.accNew = runFresh nq.psipSome rsl.accNew xs
    ∧ runThreaded nc.i xs rsl.accNew = runFresh nc.i rsl.accNew xs
    ∧ runThreaded nc.g xs rsl.accNew = runFresh nc.g rsl.accNew xs
    ∧ runThreaded nc.i_der xs rsl.accNew = runFresh nc.i_der rsl.accNew xs
    ∧ runThreaded nc.g_der xs rsl.accNew = runFresh nc.g_der rsl.accNew xs
    ∧ runThreaded (fun p st => nb.b p.1 p.2 st.1 st.2) ps
          (rsl.accNew, rsl.accNew)
        = runFresh (fun p st => nb.b p.1 p.2 st.1 st.2)
            (rsl.accNew, rsl.accNew) ps
    ∧ runThreaded (fun p st => nb.db_dtheta p.1 p.2 st.1 st.2) ps
          (rsl.accNew, rsl.accNew)
        = runFresh (fun p st => nb.db_dtheta p.1 p.2 st.1 st.2)
            (rsl.accNew, rsl.accNew) ps
    ∧ runThreaded (fun p st => nb.db_dpsi p.1 p.2 st.1 st.2) ps
          (rsl.accNew, rsl.accNew)
        = runFresh (fun p st => nb.db_dpsi p.1 p.2 st.1 st.2)
            (rsl.accNew, rsl.accNew) ps
    ∧ runThreaded (fun p st => nb.d2b_dpsi2 p.1 p.2 st.1 st.2) ps
          (rsl.accNew, rsl.accNew)
        = runFresh (fun p st => nb.d2b_dpsi2 p.1 p.2 st.1 st.2)
            (rsl.accNew, rsl.accNew) ps :=
  ⟨runThreaded_eq_runFresh _ (fun _ _ _ => rfl) xs rsl.accNew rsl.accNew,
   runThreaded_eq_runFresh _ (fun _ _ _ => rfl) xs rsl.accNew rsl.accNew,
   runThreaded_eq_runFresh _ (fun _ _ _ => rfl) xs rsl.accNew rsl.accNew,
   runThreaded_eq_runFresh _ (fun _ _ _ => rfl) xs rsl.accNew rsl.accNew,
   runThreaded_eq_runFresh _ (fun _ _ _ => rfl) xs rsl.accNew rsl.accNew,
   runThreaded_eq_runFresh _ (fun _ _ _ => rfl) xs rsl.accNew rsl.accNew,
   runThreaded_eq_runFresh _ (fun _ _ _ => rfl) ps _ _,
   runThreaded_eq_runFresh _ (fun _ _ _ => rfl) ps _ _,
   runThreaded_eq_runFresh _ (fun _ _ _ => rfl) ps _ _,
   runThreaded_eq_runFresh _ (fun _ _ _ => rfl) ps _ _⟩

/-- C9 witness: the theorem applied to concrete quantities built on
`idSpline1`/`thetaSpline2`, a concrete increasing in-domain query sequence
`[1, 2]` (and `[(1,1), (2,2)]` for the 2D field), discharging every
hypothesis there. -/
theorem accelerator_reuse_value_equality_witness :
    (([1, 2] : List ℝ).Chain' (· < ·))
    ∧ (([(1, 1), (2, 2)] : List (ℝ × ℝ)).Chain'
        (fun p q => p.1 < q.1 ∧ p.2 < q.2))
    ∧ (runThreaded (qfactor.Numerical.qSome ⟨idSpline1, idSpline1, []⟩)
          [1, 2] rsl.accNew
        = runFresh (qfactor.Numerical.qSome ⟨idSpline1, idSpline1, []⟩)
            rsl.accNew [1, 2]) := by
  have hmono : ([1, 2] : List ℝ).Chain' (· < ·) :=
    List.chain'_cons.mpr ⟨by norm_num, List.chain'_singleton _⟩
  have hmono2 : ([(1, 1), (2, 2)] : List (ℝ × ℝ)).Chain'
      (fun p q => p.1 < q.1 ∧ p.2 < q.2) :=
    List.chain'_cons.mpr ⟨⟨by norm_num, by norm_num⟩, List.chain'_singleton _⟩
  refine ⟨hmono, hmono2, ?_⟩
  exact (accelerator_reuse_value_equality ⟨idSpline1, idSpline1, []⟩
    ⟨idSpline1, idSpline1⟩ ⟨thetaSpline2, []⟩ [1, 2] [(1, 1), (2, 2)]
    hmono hmono2
    (fun x _ => ⟨rfl, rfl, rfl, rfl, rfl, rfl⟩)
    (fun p _ => ⟨rfl, rfl, rfl, rfl⟩)).1

/-- Specification of the ψₚ-integration loop: when it succeeds, it returns
one sample per grid value, and the `i`-th sample is the definite integral
of the spline from `0` to the `i`-th grid value (the threaded accelerator
never influences a value). -/
theorem integLoop_ok_spec (s : rsl.Spline1) :
    ∀ (ps : List ℝ) (a : rsl.Accelerator) (vs : List ℝ),
      qfactor.integLoop s ps a = .ok vs →
      vs.length = ps.length
      ∧ ∀ i (h1 : i < ps.length) (h2 : i < vs.length),
          s.evalInteg 0 (ps.get ⟨i, h1⟩) = .ok (vs.get ⟨i, h2⟩) := by
  intro ps
  induction ps with
  | nil =>
    intro a vs h
    simp only [qfactor.integLoop] at h
    cases h
    exact ⟨rfl, fun i h1 _ => absurd h1 (Nat.not_lt_zero i)⟩
  | cons p ps ih =>
    intro a vs h
    simp only [qfactor.integLoop, rsl.Spline1.evalIntegA] at h
    rcases hv : s.evalInteg 0 p with e | v
    · rw [hv] at h; cases h
    · rw [hv] at h
      simp only [] at h
      rcases hrec : qfactor.integLoop s ps (s.search p a) with e | vs1
      · rw [hrec] at h; cases h
      · rw [hrec] at h
        cases h
        rcases ih (s.search p a) vs1 hrec with ⟨hlen, htail⟩
        refine ⟨by simp [hlen], fun i h1 h2 => ?_⟩
        cases i with
        | zero => simpa using hv
        | succ j =>
          exact htail j (Nat.lt_of_succ_lt_succ h1) (Nat.lt_of_succ_lt_succ h2)

/-- C5: during numerical q-factor construction, whenever it succeeds every
stored ψₚ sample is the definite integral of the q spline from 0 to the
corresponding value of the ψ grid (the extracted ψ array with `0.0`
prepended), computed through the single local accelerator threaded by
`integLoop`; the ψₚ spline is then built over exactly this (ψ grid, ψₚ
samples) pair of arrays; and any integration error aborts construction with
that error. -/
theorem qfactor_from_dataset_psip_integration
    (lib : rsl.InterpLib) (typ : String) (rawPsi rawQ : List ℝ)
    (qs : rsl.Spline1)
    (hq : lib.make typ (extract_var_with_axis_value 0 rawPsi)
            (extract_var_with_first_axis_value rawQ) = .ok qs) :
    (∀ res, qfactor.Numerical.from_dataset lib typ rawPsi rawQ = .ok res →
      res.q_spline = qs
      ∧ res.psip_data.length = (extract_var_with_axis_value 0 rawPsi).length
      ∧ (∀ i (h1 : i < (extract_var_with_axis_value 0 rawPsi).length)
            (h2 : i < res.psip_data.length),
          qs.evalInteg 0 ((extract_var_with_axis_value 0 rawPsi).get ⟨i, h1⟩)
            = .ok (res.psip_data.get ⟨i, h2⟩))
      ∧ lib.make typ (extract_var_with_axis_value 0 rawPsi) res.psip_data
          = .ok res.psip_spline)
    ∧ (∀ e, qfactor.integLoop qs (extract_var_with_axis_value 0 rawPsi)
            rsl.accNew = .error e →
        qfactor.Numerical.from_dataset lib typ rawPsi rawQ
          = .error (EqError.domainError e)) := by
  constructor
  · intro res hok
    simp only [qfactor.Numerical.from_dataset, hq] at hok
    split at hok
    · cases hok
    · rename_i psips hloop
      split at hok
      · cases hok
      · rename_i spl2 hmk2
        cases hok
        rcases integLoop_ok_spec qs _ rsl.accNew psips hloop with ⟨hlen, hvals⟩
        exact ⟨rfl, hlen, hvals, hmk2⟩
  · intro e he
    simp only [qfactor.Numerical.from_dataset, hq, he]

/-- C5 witness: the theorem applied to the concrete library `constLib` and
empty raw arrays (so the ψ grid is `[0]`), discharging the spline-build
hypothesis by computation. -/
theorem qfactor_from_dataset_psip_integration_witness :
    (constLib.make cubicTag (extract_var_with_axis_value 0 [])
        (extract_var_with_first_axis_value []) = .ok idSpline1)
    ∧ ((∀ res, qfactor.Numerical.from_dataset constLib cubicTag [] [] = .ok res →
        res.q_spline = idSpline1
        ∧ res.psip_data.length = (extract_var_with_axis_value 0 []).length
        ∧ (∀ i (h1 : i < (extract_var_with_axis_value 0 []).length)
              (h2 : i < res.psip_data.length),
            idSpline1.evalInteg 0 ((extract_var_with_axis_value 0 []).get ⟨i, h1⟩)
              = .ok (res.psip_data.get ⟨i, h2⟩))
        ∧ constLib.make cubicTag (extract_var_with_axis_value 0 []) res.psip_data
            = .ok res.psip_spline)
      ∧ (∀ e, qfactor.integLoop idSpline1 (extract_var_with_axis_value 0 [])
              rsl.accNew = .error e →
          qfactor.Numerical.from_dataset constLib cubicTag [] []
            = .error (EqError.domainError e))) :=
  ⟨rfl, qfactor_from_dataset_psip_integration constLib cubicTag [] [] idSpline1 rfl⟩

/-- Adequacy of the fueled bit-length recursion: with enough fuel, `blA`
computes a genuine bit length. -/
theorem blA_spec : ∀ f n : ℕ, n ≤ f → 1 ≤ n →
    2 ^ (blA f n - 1) ≤ n ∧ n < 2 ^ blA f n := by
  intro f
  induction f with
  | zero => intro n hnf hn; exact absurd hn (by omega)
  | succ f ih =>
    intro n hnf hn
    rcases n with _ | m
    · exact absurd hn (by omega)
    · show 2 ^ (blA f ((m + 1) / 2) + 1 - 1) ≤ m + 1
        ∧ m + 1 < 2 ^ (blA f ((m + 1) / 2) + 1)
      rcases Nat.eq_zero_or_pos m with hm | hm
      · subst hm
        norm_num [blA]
      · have h2 : (m + 1) / 2 ≤ f := by omega
        have h1 : 1 ≤ (m + 1) / 2 := by omega
        obtain ⟨lo, hi⟩ := ih ((m + 1) / 2) h2 h1
        have hB1 : 1 ≤ blA f ((m + 1) / 2) := by
          rcases Nat.eq_zero_or_pos (blA f ((m + 1) / 2)) with h0 | h0
          · rw [h0] at hi; simp at hi; omega
          · exact h0
        have hBe : blA f ((m + 1) / 2) - 1 + 1 = blA f ((m + 1) / 2) := by omega
        constructor
        · have hp : 2 ^ blA f ((m + 1) / 2)
              = 2 ^ (blA f ((m + 1) / 2) - 1) * 2 := by
            rw [← pow_succ, hBe]
          simp only [Nat.add_sub_cancel]
          rw [hp]
          omega
        · have hp : 2 ^ (blA f ((m + 1) / 2) + 1)
              = 2 ^ blA f ((m + 1) / 2) * 2 := by rw [pow_succ]
          rw [hp]
          omega

/-- For `n ≥ 1`, `bitLen n` is the genuine bit length of `n`. -/
theorem bitLen_spec (n : ℕ) (hn : 1 ≤ n) :
    2 ^ (bitLen n - 1) ≤ n ∧ n < 2 ^ bitLen n :=
  blA_spec n n le_rfl hn

/-- The function `pow2` agrees with the integer power of 2 in ℚ. -/
theorem pow2_eq (z : ℤ) : pow2 z = (2 : ℚ) ^ z := by
  unfold pow2
  split_ifs with h
  · push_cast
    rw [← zpow_natCast, Int.toNat_of_nonneg h]
  · push_neg at h
    push_cast
    rw [one_div, ← zpow_natCast, Int.toNat_of_nonneg (by omega : (0 : ℤ) ≤ -z),
      ← zpow_neg, neg_neg]

/-- The function `pow2` is positive. -/
theorem pow2_pos (z : ℤ) : 0 < pow2 z := by
  rw [pow2_eq]; positivity

/-- The function `pow2` is monotone. -/
theorem pow2_le_pow2 {y z : ℤ} (h : y ≤ z) : pow2 y ≤ pow2 z := by
  rw [pow2_eq, pow2_eq]
  exact zpow_le_zpow_right₀ one_le_two h

/-- The function `pow2` reflects strict order. -/
theorem pow2_lt_pow2_iff {y z : ℤ} : pow2 y < pow2 z ↔ y < z := by
  rw [pow2_eq, pow2_eq]
  exact zpow_lt_zpow_iff_right₀ one_lt_two

/-- The function `pow2` turns addition into multiplication. -/
theorem pow2_add (y z : ℤ) : pow2 (y + z) = pow2 y * pow2 z := by
  rw [pow2_eq, pow2_eq, pow2_eq]
  exact zpow_add₀ two_ne_zero y z

/-- The exponent `expQ` satisfies its characteristic property on positive rationals:
`2 ^ expQ a ≤ a < 2 ^ (expQ a + 1)`. -/
theorem expQ_spec (a : ℚ) (ha : 0 < a) :
    pow2 (expQ a) ≤ a ∧ a < pow2 (expQ a + 1) := by
  have hnum : 0 < a.num := Rat.num_pos.mpr ha
  have hn1 : 1 ≤ a.num.toNat := by omega
  have hd1 : 1 ≤ a.den := a.pos
  have htn : ((a.num.toNat : ℕ) : ℚ) = (a.num : ℚ) := by
    exact_mod_cast Int.toNat_of_nonneg hnum.le
  have ha_eq : a = (a.num.toNat : ℚ) / (a.den : ℚ) := by
    rw [htn]
    exact (Rat.num_div_den a).symm
  obtain ⟨hdlo, hdhi⟩ := bitLen_spec a.den hd1
  have hm1 : 1 ≤ (a.num.toNat * 2 ^ bitLen a.den) / a.den := by
    apply (Nat.one_le_div_iff hd1).mpr
    calc a.den ≤ 2 ^ bitLen a.den := le_of_lt hdhi
      _ = 1 * 2 ^ bitLen a.den := (one_mul _).symm
      _ ≤ a.num.toNat * 2 ^ bitLen a.den := Nat.mul_le_mul_right _ hn1
  obtain ⟨hmlo, hmhi⟩ := bitLen_spec _ hm1
  set k := bitLen a.den with hk
  set m := (a.num.toNat * 2 ^ k) / a.den with hm
  set L := bitLen m with hL
  have hm1m : 1 ≤ m := hm1
  have hL1 : 1 ≤ L := by
    rcases Nat.eq_zero_or_pos L with h0 | h0
    · rw [h0] at hmhi
      simp at hmhi
      omega
    · exact h0
  -- division bounds
  have hdiv1 : m * a.den ≤ a.num.toNat * 2 ^ k := Nat.div_mul_le_self _ _
  have hdiv2 : a.num.toNat * 2 ^ k < (m + 1) * a.den := by
    have h1 := Nat.div_add_mod (a.num.toNat * 2 ^ k) a.den
    have h2 : (a.num.toNat * 2 ^ k) % a.den < a.den := Nat.mod_lt _ hd1
    calc a.num.toNat * 2 ^ k
        = a.den * m + (a.num.toNat * 2 ^ k) % a.den := h1.symm
      _ < a.den * m + a.den := by omega
      _ = (m + 1) * a.den := by ring
  -- the scaled value a * 2^k lies in [m, m+1)
  have hsc_lo : (m : ℚ) ≤ a * (2 ^ k : ℚ) := by
    rw [ha_eq, div_mul_eq_mul_div, le_div_iff₀ (by positivity)]
    exact_mod_cast hdiv1
  have hsc_hi : a * (2 ^ k : ℚ) < (m : ℚ) + 1 := by
    rw [ha_eq, div_mul_eq_mul_div, div_lt_iff₀ (by positivity)]
    calc ((a.num.toNat : ℚ) * 2 ^ k) < ((m + 1 : ℕ) : ℚ) * a.den := by
          exact_mod_cast hdiv2
      _ = ((m : ℚ) + 1) * a.den := by push_cast; ring
  -- bit-length bounds on m over ℚ
  have hq_lo : (2 : ℚ) ^ (L - 1 : ℕ) ≤ (m : ℚ) := by exact_mod_cast hmlo
  have hq_hi : (m : ℚ) + 1 ≤ (2 : ℚ) ^ (L : ℕ) := by exact_mod_cast hmhi
  have h2k : (0 : ℚ) < (2 : ℚ) ^ k := by positivity
  -- expQ a = L - 1 - k
  have hE : expQ a = (L : ℤ) - 1 - (k : ℤ) := by
    simp only [expQ, ← hk, ← hm, ← hL]
  constructor
  · rw [hE, pow2_eq]
    have hLcast : (L : ℤ) - 1 - (k : ℤ) = ((L - 1 : ℕ) : ℤ) - (k : ℤ) := by
      omega
    have hzp : (2 : ℚ) ^ ((L : ℤ) - 1 - (k : ℤ))
        = (2 : ℚ) ^ (L - 1 : ℕ) / (2 : ℚ) ^ k := by
      rw [hLcast, zpow_sub₀ (two_ne_zero), zpow_natCast, zpow_natCast]
    rw [hzp, div_le_iff₀ h2k]
    calc (2:ℚ) ^ (L - 1 : ℕ) ≤ (m : ℚ) := hq_lo
      _ ≤ a * 2 ^ k := hsc_lo
  · rw [hE, pow2_eq]
    have harith : (L : ℤ) - 1 - (k : ℤ) + 1 = (L : ℤ) - (k : ℤ) := by ring
    rw [harith]
    have : (2 : ℚ) ^ ((L : ℤ) - (k : ℤ)) = (2 : ℚ) ^ (L : ℕ) / (2 : ℚ) ^ k := by
      rw [zpow_sub₀ (two_ne_zero), zpow_natCast, zpow_natCast]
    rw [this, lt_div_iff₀ h2k]
    calc a * 2 ^ k < (m : ℚ) + 1 := hsc_hi
      _ ≤ (2:ℚ) ^ (L : ℕ) := hq_hi
/-- The value `rhe y` is at least the floor of `y`. -/
theorem rhe_floor_le (y : ℚ) : ⌊y⌋ ≤ rhe y := by
  unfold rhe; split_ifs <;> omega

/-- The value `rhe y` is at most the floor of `y` plus one. -/
theorem rhe_le_ceil (y : ℚ) : rhe y ≤ ⌊y⌋ + 1 := by
  unfold rhe; split_ifs <;> omega

/-- The function `rhe` fixes the integers. -/
theorem rhe_intCast (n : ℤ) : rhe (n : ℚ) = n := by
  unfold rhe
  rw [Int.floor_intCast]
  norm_num

/-- The value `rhe y` never exceeds `y + 1/2`. -/
theorem rhe_le_add_half (y : ℚ) : (rhe y : ℚ) ≤ y + 1 / 2 := by
  unfold rhe
  have h1 := Int.floor_le y
  have h2 := Int.lt_floor_add_one y
  split_ifs with ha hb hc <;> push_cast <;> linarith

/-- The value `rhe` of a nonnegative rational is nonnegative. -/
theorem rhe_nonneg {y : ℚ} (h : 0 ≤ y) : 0 ≤ rhe y :=
  le_trans (Int.le_floor.mpr (by exact_mod_cast h)) (rhe_floor_le y)

/-- Round-half-to-even is monotone. -/
theorem rhe_mono {y z : ℚ} (h : y ≤ z) : rhe y ≤ rhe z := by
  rcases lt_or_le ⌊y⌋ ⌊z⌋ with hf | hf
  · calc rhe y ≤ ⌊y⌋ + 1 := rhe_le_ceil y
      _ ≤ ⌊z⌋ := by omega
      _ ≤ rhe z := rhe_floor_le z
  · have hfe : ⌊y⌋ = ⌊z⌋ := le_antisymm (Int.floor_le_floor h) hf
    have hfr : y - (⌊y⌋ : ℚ) ≤ z - (⌊z⌋ : ℚ) := by
      rw [hfe]; push_cast; linarith
    unfold rhe
    rw [hfe] at hfr ⊢
    split_ifs with h1 h2 h3 h4 h5 h6 h7 <;> try omega
    all_goals linarith

/-- The value `roundPos` of a positive rational is nonnegative. -/
theorem roundPos_nonneg {a : ℚ} (ha : 0 < a) : 0 ≤ roundPos a := by
  unfold roundPos
  have h1 : 0 ≤ rhe (a * pow2 (52 - expQ a)) :=
    rhe_nonneg (mul_nonneg ha.le (pow2_pos _).le)
  have h2 : 0 < pow2 (expQ a - 52) := pow2_pos _
  exact mul_nonneg (by exact_mod_cast h1) h2.le

/-- The value `roundPos a` never exceeds `a` by more than half an ulp. -/
theorem roundPos_le (a : ℚ) : roundPos a ≤ a + pow2 (expQ a - 53) := by
  unfold roundPos
  have h := rhe_le_add_half (a * pow2 (52 - expQ a))
  have hp : 0 < pow2 (expQ a - 52) := pow2_pos _
  calc ((rhe (a * pow2 (52 - expQ a)) : ℤ) : ℚ) * pow2 (expQ a - 52)
      ≤ (a * pow2 (52 - expQ a) + 1 / 2) * pow2 (expQ a - 52) :=
        mul_le_mul_of_nonneg_right h hp.le
    _ = a * (pow2 (52 - expQ a) * pow2 (expQ a - 52))
        + pow2 (-1) * pow2 (expQ a - 52) := by
        have hhalf : (1 : ℚ) / 2 = pow2 (-1) := by
          rw [pow2_eq]; norm_num
        rw [hhalf]; ring
    _ = a + pow2 (expQ a - 53) := by
        rw [← pow2_add, ← pow2_add]
        norm_num
        rw [show pow2 0 = 1 from by rw [pow2_eq]; norm_num,
          show (-1 : ℤ) + (expQ a - 52) = expQ a - 53 from by ring]
        ring

/-- The function `roundPos` never rounds a positive value below `tauQ` past `tauQ`. -/
theorem roundPos_le_tau {a : ℚ} (ha : 0 < a) (h : a < tauQ) :
    roundPos a ≤ tauQ := by
  rcases le_or_lt (expQ a) 1 with hE | hE
  · have h1 := roundPos_le a
    have h2 : a < pow2 (expQ a + 1) := (expQ_spec a ha).2
    have h3 : pow2 (expQ a + 1) ≤ pow2 2 := pow2_le_pow2 (by omega)
    have h4 : pow2 (expQ a - 53) ≤ pow2 (-52) := pow2_le_pow2 (by omega)
    have h5 : pow2 2 = 4 := by rw [pow2_eq]; norm_num
    have h6 : pow2 (-52 : ℤ) = 1 / 2 ^ 52 := by rw [pow2_eq]; norm_num
    have htau : (4 : ℚ) + 1 / 2 ^ 52 ≤ tauQ := by norm_num [tauQ]
    linarith
  · have hE2 : expQ a = 2 := by
      have hlo := (expQ_spec a ha).1
      have h8 : tauQ < pow2 3 := by rw [pow2_eq]; norm_num [tauQ]
      have hlt : pow2 (expQ a) < pow2 3 := lt_of_le_of_lt hlo (lt_trans h h8)
      have := pow2_lt_pow2_iff.mp hlt
      omega
    unfold roundPos
    rw [hE2]
    norm_num
    have hsc : a * pow2 50 ≤ ((7074237752028440 : ℤ) : ℚ) := by
      have hmul := mul_le_mul_of_nonneg_right h.le (pow2_pos 50).le
      have hM : tauQ * pow2 50 = ((7074237752028440 : ℤ) : ℚ) := by
        rw [pow2_eq]; norm_num [tauQ]
      push_cast at hM ⊢
      linarith
    have hrhe : rhe (a * pow2 50) ≤ 7074237752028440 := by
      have := rhe_mono hsc
      rwa [rhe_intCast] at this
    have hMt : ((7074237752028440 : ℤ) : ℚ) * pow2 (-50) = tauQ := by
      rw [pow2_eq]; norm_num [tauQ]
    calc ((rhe (a * pow2 50) : ℤ) : ℚ) * pow2 (-50)
        ≤ ((7074237752028440 : ℤ) : ℚ) * pow2 (-50) := by
          have hp := pow2_pos (-50)
          exact mul_le_mul_of_nonneg_right (by exact_mod_cast hrhe) hp.le
      _ = tauQ := hMt

/-- The function `roundF` maps a value in `(0, tauQ)` to a finite value in `[0, tauQ]`. -/
theorem roundF_pos_le_tau {x : ℚ} (hx : 0 < x) (hlt : x < tauQ) :
    ∃ r : ℚ, roundF x = .num r ∧ 0 ≤ r ∧ r ≤ tauQ := by
  unfold roundF
  have hne : ¬(x = 0) := hx.ne'
  have habs : |x| = x := abs_of_pos hx
  have hneg : ¬(x < 0) := not_lt.mpr hx.le
  rw [if_neg hne, habs, if_neg hneg]
  rcases lt_or_le x (pow2 (-1022)) with hsub | hnorm
  · rw [if_pos hsub]
    refine ⟨_, rfl, ?_, ?_⟩
    · have h1 : 0 ≤ rhe (x * pow2 1074) :=
        rhe_nonneg (mul_nonneg hx.le (pow2_pos _).le)
      have h2 := pow2_pos (-1074)
      rw [one_mul]
      exact mul_nonneg (by exact_mod_cast h1) h2.le
    · rw [one_mul]
      have h := rhe_le_add_half (x * pow2 1074)
      have hp := pow2_pos (-1074 : ℤ)
      have h12 : pow2 (-1 : ℤ) = 1 / 2 := by rw [pow2_eq]; norm_num
      have hb : ((rhe (x * pow2 1074) : ℤ) : ℚ) * pow2 (-1074)
          ≤ (x * pow2 1074 + 1 / 2) * pow2 (-1074) :=
        mul_le_mul_of_nonneg_right h hp.le
      have hcancel : pow2 (1074 : ℤ) * pow2 (-1074 : ℤ) = 1 := by
        rw [← pow2_add]
        norm_num
        rw [pow2_eq]; norm_num
      have hexp : (x * pow2 1074 + 1 / 2) * pow2 (-1074)
          = x + 1 / 2 * pow2 (-1074) := by
        calc (x * pow2 1074 + 1 / 2) * pow2 (-1074)
            = x * (pow2 1074 * pow2 (-1074)) + 1 / 2 * pow2 (-1074) := by
              ring
          _ = x + 1 / 2 * pow2 (-1074) := by rw [hcancel]; ring
      have hp1 : pow2 (-1074 : ℤ) ≤ 1 := by
        have hh := pow2_le_pow2 (show (-1074 : ℤ) ≤ 0 by omega)
        have h0 : pow2 (0 : ℤ) = 1 := by rw [pow2_eq]; norm_num
        linarith
      have hsm : (1 : ℚ) / 2 * pow2 (-1074) ≤ 1 / 2 := by
        have := mul_le_mul_of_nonneg_left hp1 (show (0:ℚ) ≤ 1 / 2 by norm_num)
        linarith
      have hx1 : x ≤ 1 / 2 := by
        have hle := pow2_le_pow2 (show (-1022 : ℤ) ≤ -1 by omega)
        linarith
      have htau1 : (1 : ℚ) ≤ tauQ := by norm_num [tauQ]
      linarith
  · rw [if_neg (not_lt.mpr hnorm)]
    have hle : roundPos x ≤ tauQ := roundPos_le_tau hx hlt
    have hov : ¬(pow2 1024 ≤ roundPos x) := by
      have hbig : tauQ < pow2 1024 := by
        have h8 : tauQ < pow2 3 := by rw [pow2_eq]; norm_num [tauQ]
        exact lt_of_lt_of_le h8 (pow2_le_pow2 (by omega))
      linarith
    rw [if_neg hov, one_mul]
    exact ⟨_, rfl, roundPos_nonneg hx, hle⟩

/-- The exact truncated remainder is smaller than the divisor in absolute
value. -/
theorem truncQ_dist (x : ℚ) : |x - (truncQ x : ℚ)| < 1 := by
  unfold truncQ
  split_ifs with h
  · rw [abs_of_nonneg (sub_nonneg.mpr (Int.floor_le x))]
    have := Int.lt_floor_add_one x
    push_cast
    linarith
  · push_neg at h
    have h1 := Int.floor_le (-x)
    have h2 := Int.lt_floor_add_one (-x)
    rw [abs_of_nonpos (by push_cast; linarith)]
    push_cast
    linarith

/-- The binary64 `%` (exact truncated remainder) is smaller than the
modulus in absolute value. -/
theorem fmod_abs_lt (a b : ℚ) (hb : b ≠ 0) :
    |a - b * ((truncQ (a / b) : ℤ) : ℚ)| < |b| := by
  have h : a - b * ((truncQ (a / b) : ℤ) : ℚ)
      = b * (a / b - (truncQ (a / b) : ℚ)) := by
    field_simp
  rw [h, abs_mul]
  calc |b| * |a / b - ((truncQ (a / b) : ℤ) : ℚ)| < |b| * 1 :=
      mul_lt_mul_of_pos_left (truncQ_dist (a / b)) (abs_pos.mpr hb)
    _ = |b| := mul_one _

/-- C7 amended: the θ-wrapping function over exact binary64 semantics
always returns a finite value `r` with `0 ≤ r ≤ TAU` — the interval is
closed on the right: the result can equal the binary64 value `TAU` of 2π
(see the counterexample), though never exceed it. -/
theorem mod_theta_range_closed (q : ℚ) :
    ∃ r : ℚ, mod_theta (.num q) = .num r ∧ 0 ≤ r ∧ r ≤ tauQ := by
  have htau0 : tauQ ≠ 0 := by norm_num [tauQ]
  have htaupos : 0 < tauQ := by norm_num [tauQ]
  unfold mod_theta remEuclidF tauF
  simp only [fmodF, if_neg htau0]
  set m : ℚ := q - tauQ * ((truncQ (q / tauQ) : ℤ) : ℚ) with hm
  have habs : |m| < tauQ := by
    have := fmod_abs_lt q tauQ htau0
    rwa [abs_of_pos htaupos] at this
  obtain ⟨hmlo, hmhi⟩ := abs_lt.mp habs
  by_cases hneg : m < 0
  · have hlt : ltF (.num m) (.num 0) = true := by
      simp [ltF, hneg]
    rw [hlt]
    simp only [absF, addF, abs_of_pos htaupos]
    have h1 : 0 < m + tauQ := by linarith
    have h2 : m + tauQ < tauQ := by linarith
    exact roundF_pos_le_tau h1 h2
  · have hlt : ltF (.num m) (.num 0) = false := by
      simp [ltF, hneg]
    rw [hlt]
    exact ⟨m, by simp, not_lt.mp hneg, hmhi.le⟩

/-- C7 counterexample: at the finite input `θ = -2⁻⁶⁰` the θ-wrapping
function returns exactly the binary64 value `TAU`: the exact remainder
`TAU - 2⁻⁶⁰` is within half an ulp of `TAU`, so the addition `r + TAU`
rounds up to `TAU` itself, and the claimed strict bound `result < TAU` is
false (`ltF` of the result and `TAU` is `false` because they are equal). -/
theorem mod_theta_reaches_tau :
    mod_theta (.num (-(1 / 2 ^ 60))) = tauF
    ∧ ltF (mod_theta (.num (-(1 / 2 ^ 60)))) tauF = false := by
  constructor
  · with_unfolding_all rfl
  · with_unfolding_all rfl
